import Mathlib

/-
Shallow embedding of cert_chain.py, a hash-linked certificate ledger, and
proofs of the specification claims about it.

Modelling conventions:
- Python strings are Lean Strings; hashing is a faithful implementation of
  SHA-256 (FIPS 180-4) over the UTF-8 bytes of the input, producing the
  lowercase hex digest, matching hashlib.sha256(...).hexdigest().
- Wall-clock time (time()) is modelled as an abstract Nat tick passed
  explicitly; its textual form inside hashed strings is its decimal digits.
  add_block calls time() twice in the source (once inside compute_hash, once
  for the Block timestamp), so it takes two tick parameters.
- Block payloads ("data") are Python dicts with string keys whose values are
  either strings or None; they are modelled as insertion-ordered association
  lists, matching dict insertion order, which Python repr() respects.
- The persisted JSON file is modelled post-parse, as the list of records
  json.load would produce; JSON round-tripping is the identity on these
  values. Block(**record) performs no type checks: it succeeds exactly when
  the record keys are precisely the five dataclass field names.
-/

set_option maxRecDepth 100000

namespace SHA256

def rotr (n x : Nat) : Nat := ((x >>> n) ||| (x <<< (32 - n))) % 2 ^ 32

def icbrtAux : Nat → Nat → Nat → Nat
  | 0, _, acc => acc
  | b + 1, n, acc =>
      let c := acc + 2 ^ b
      if c * c * c ≤ n then icbrtAux b n c else icbrtAux b n acc

/-- Integer cube root: the largest k with k^3 ≤ n, for n < 2^120. -/
def icbrt (n : Nat) : Nat := icbrtAux 40 n 0

def isqrtAux : Nat → Nat → Nat → Nat
  | 0, _, acc => acc
  | b + 1, n, acc =>
      let c := acc + 2 ^ b
      if c * c ≤ n then isqrtAux b n c else isqrtAux b n acc

/-- Integer square root: the largest k with k^2 ≤ n, for n < 2^80. -/
def isqrt (n : Nat) : Nat := isqrtAux 40 n 0

def primes64 : List Nat :=
  [2, 3, 5, 7, 11, 13, 17, 19, 23, 29, 31, 37, 41, 43, 47, 53, 59, 61, 67, 71,
   73, 79, 83, 89, 97, 101, 103, 107, 109, 113, 127, 131, 137, 139, 149, 151,
   157, 163, 167, 173, 179, 181, 191, 193, 197, 199, 211, 223, 227, 229, 233,
   239, 241, 251, 257, 263, 269, 271, 277, 281, 283, 293, 307, 311]

/-- Round constants: first 32 bits of the fractional parts of the cube roots
of the first 64 primes (FIPS 180-4 section 4.2.2). -/
def K : List Nat := primes64.map (fun p => icbrt (p * 2 ^ 96) % 2 ^ 32)

/-- Initial hash value: first 32 bits of the fractional parts of the square
roots of the first 8 primes (FIPS 180-4 section 5.3.3). -/
def initH : List Nat := (primes64.take 8).map (fun p => isqrt (p * 2 ^ 64) % 2 ^ 32)

def toBytesBE : Nat → Nat → List Nat
  | 0, _ => []
  | k + 1, n => toBytesBE k (n / 256) ++ [n % 256]

def pad (msg : List Nat) : List Nat :=
  let zeros := (64 - (msg.length + 9) % 64) % 64
  msg ++ [128] ++ List.replicate zeros 0 ++ toBytesBE 8 (8 * msg.length)

def toWords : List Nat → List Nat
  | a :: b :: c :: d :: rest => (((a * 256 + b) * 256 + c) * 256 + d) :: toWords rest
  | _ => []

def ssig0 (x : Nat) : Nat := rotr 7 x ^^^ rotr 18 x ^^^ (x >>> 3)

def ssig1 (x : Nat) : Nat := rotr 17 x ^^^ rotr 19 x ^^^ (x >>> 10)

def bsig0 (x : Nat) : Nat := rotr 2 x ^^^ rotr 13 x ^^^ rotr 22 x

def bsig1 (x : Nat) : Nat := rotr 6 x ^^^ rotr 11 x ^^^ rotr 25 x

def chFn (x y z : Nat) : Nat := (x &&& y) ^^^ ((x ^^^ (2 ^ 32 - 1)) &&& z)

def majFn (x y z : Nat) : Nat := (x &&& y) ^^^ (x &&& z) ^^^ (y &&& z)

def newWord (w : List Nat) : Nat :=
  let n := w.length
  (w.getD (n - 16) 0 + ssig0 (w.getD (n - 15) 0) + w.getD (n - 7) 0 +
    ssig1 (w.getD (n - 2) 0)) % 2 ^ 32

def extendWords : Nat → List Nat → List Nat
  | 0, w => w
  | k + 1, w => extendWords k (w ++ [newWord w])

structure St where
  a : Nat
  b : Nat
  c : Nat
  d : Nat
  e : Nat
  f : Nat
  g : Nat
  h : Nat

def rounds : List (Nat × Nat) → St → St
  | [], st => st
  | (k, w) :: rest, st =>
    let t1 := (st.h + bsig1 st.e + chFn st.e st.f st.g + k + w) % 2 ^ 32
    let t2 := (bsig0 st.a + majFn st.a st.b st.c) % 2 ^ 32
    rounds rest ⟨(t1 + t2) % 2 ^ 32, st.a, st.b, st.c, (st.d + t1) % 2 ^ 32, st.e, st.f, st.g⟩

def stOfList : List Nat → St
  | [a, b, c, d, e, f, g, h] => ⟨a, b, c, d, e, f, g, h⟩
  | _ => ⟨0, 0, 0, 0, 0, 0, 0, 0⟩

def addSt (x y : St) : St :=
  ⟨(x.a + y.a) % 2 ^ 32, (x.b + y.b) % 2 ^ 32, (x.c + y.c) % 2 ^ 32, (x.d + y.d) % 2 ^ 32,
   (x.e + y.e) % 2 ^ 32, (x.f + y.f) % 2 ^ 32, (x.g + y.g) % 2 ^ 32, (x.h + y.h) % 2 ^ 32⟩

def compress (st : St) (block : List Nat) : St :=
  let ws := extendWords 48 (toWords block)
  addSt st (rounds (K.zip ws) st)

def processN : Nat → List Nat → St → St
  | 0, _, st => st
  | k + 1, bytes, st => processN k (bytes.drop 64) (compress st (bytes.take 64))

/-- SHA-256 digest of a byte sequence, as the list of 32 digest bytes. -/
def sha256bytes (msg : List Nat) : List Nat :=
  let p := pad msg
  let st := processN (p.length / 64) p (stOfList initH)
  ([st.a, st.b, st.c, st.d, st.e, st.f, st.g, st.h].map (toBytesBE 4)).flatten

def hexChar (n : Nat) : Char := if n < 10 then Char.ofNat (48 + n) else Char.ofNat (87 + n)

def byteHex (b : Nat) : List Char := [hexChar (b / 16), hexChar (b % 16)]

def utf8Char (c : Char) : List Nat :=
  let n := c.toNat
  if n < 128 then [n]
  else if n < 2048 then [192 + n / 64, 128 + n % 64]
  else if n < 65536 then [224 + n / 4096, 128 + n / 64 % 64, 128 + n % 64]
  else [240 + n / 262144, 128 + n / 4096 % 64, 128 + n / 64 % 64, 128 + n % 64]

def strBytes (s : String) : List Nat := (s.data.map utf8Char).flatten

/-- Model of hashlib.sha256(s.encode()).hexdigest(): the lowercase hex
digest of the SHA-256 hash of the UTF-8 encoding of s. -/
def sha256hex (s : String) : String :=
  String.mk (((sha256bytes (strBytes s)).map byteHex).flatten)

end SHA256

namespace CertChain

/-- Values stored in a block payload dict: Python strings or None. -/
inductive PyV where
  | s : String → PyV
  | none : PyV
deriving DecidableEq

/-- A Python dict with string keys, as an insertion-ordered association list. -/
abbrev PyDict := List (String × PyV)

def dget : PyDict → String → Option PyV
  | [], _ => Option.none
  | (k, v) :: rest, key => if k = key then Option.some v else dget rest key

/-- Python d.get(k): the stored value, or None when the key is absent. -/
def pyGet (d : PyDict) (k : String) : PyV := (dget d k).getD PyV.none

/-- Python d.get(k, dflt): the stored value, or dflt when the key is absent. -/
def pyGetD (d : PyDict) (k : String) (dflt : PyV) : PyV := (dget d k).getD dflt

/-- Python repr of a payload value: strings in single quotes, None bare.
The strings stored by this program never contain quotes or escapes, so
repr is quoting. -/
def pyReprV : PyV → String
  | .s v => "\x27" ++ v ++ "\x27"
  | .none => "None"

def pyReprEntry (kv : String × PyV) : String :=
  "\x27" ++ kv.1 ++ "\x27: " ++ pyReprV kv.2

/-- Python repr of a dict, respecting insertion order. -/
def pyReprDict (d : PyDict) : String :=
  "\x7b" ++ String.intercalate ", " (d.map pyReprEntry) ++ "\x7d"

/-- The Block dataclass of cert_chain.py. -/
structure Block where
  index : Nat
  timestamp : Nat
  prev_hash : String
  data : PyDict
  current_hash : String
deriving DecidableEq

/-- Genesis payload from Blockchain._create_genesis. -/
def genesis_data : PyDict :=
  [("type", PyV.s "GENESIS"), ("note", PyV.s "Decentralized Certificate Registry")]

/-- The all-zero prev_hash sentinel "0"*64 of the genesis block. -/
def sentinel : String := String.mk (List.replicate 64 (Char.ofNat 48))

/-- Blockchain._create_genesis: hashes repr(genesis_data) alone, and builds
Block(0, time(), "0"*64, genesis_data, h). -/
def create_genesis (t : Nat) : Block :=
  { index := 0
    timestamp := t
    prev_hash := sentinel
    data := genesis_data
    current_hash := SHA256.sha256hex (pyReprDict genesis_data) }

/-- Blockchain.compute_hash: sha256 of f-string repr(data)|prev_hash|len(chain)|time(). -/
def compute_hash (chain_len : Nat) (data : PyDict) (prev_hash : String) (t : Nat) : String :=
  SHA256.sha256hex
    (pyReprDict data ++ "|" ++ prev_hash ++ "|" ++ toString chain_len ++ "|" ++ toString t)

/-- Blockchain.add_block. Reading last_block on an empty chain raises
IndexError in Python, modelled as Option.none; t1 is the time() read inside
compute_hash, t2 the time() read for the Block timestamp. -/
def add_block (chain : List Block) (data : PyDict) (t1 t2 : Nat) :
    Option (List Block × Block) :=
  match chain.getLast? with
  | Option.none => Option.none
  | Option.some lb =>
      let prev_hash := lb.current_hash
      let current_hash := compute_hash chain.length data prev_hash t1
      let b : Block := ⟨chain.length, t2, prev_hash, data, current_hash⟩
      Option.some (chain ++ [b], b)

/-- Blockchain.has_cert_hash: any block whose data.get("cert_hash") equals
the argument. -/
def has_cert_hash (chain : List Block) (cert_hash : String) : Bool :=
  chain.any (fun b => decide (pyGet b.data "cert_hash" = PyV.s cert_hash))

/-- Blockchain.history: the blocks whose data.get("cert_hash") matches, in
chain order. The source returns asdict(b) for each such block; the dict
carries exactly the block fields, so the blocks themselves are returned. -/
def history (chain : List Block) (cert_hash : String) : List Block :=
  chain.filter (fun b => decide (pyGet b.data "cert_hash" = PyV.s cert_hash))

/-- Ownership resolution loop shared by transfer_flow and verify_flow:
current_owner starts None; a MINT block sets it to data.get("owner",
current) and a TRANSFER block to data.get("to", current). -/
def resolve_owner (hist : List Block) : PyV :=
  hist.foldl
    (fun cur b =>
      if pyGet b.data "type" = PyV.s "MINT" then pyGetD b.data "owner" cur
      else if pyGet b.data "type" = PyV.s "TRANSFER" then pyGetD b.data "to" cur
      else cur)
    PyV.none

/-- Certificate fingerprint from mint_flow:
sha256(fhash + "|" + student + "|" + course + "|" + year). -/
def cert_fingerprint (fhash student course year : String) : String :=
  SHA256.sha256hex (fhash ++ "|" ++ student ++ "|" ++ course ++ "|" ++ year)

/-- The MINT payload dict built by mint_flow (owner = student). -/
def mint_data (combined fhash student course year : String) : PyDict :=
  [("type", PyV.s "MINT"), ("cert_hash", PyV.s combined), ("file_hash", PyV.s fhash),
   ("student_name", PyV.s student), ("course", PyV.s course), ("year", PyV.s year),
   ("owner", PyV.s student)]

/-- mint_flow after the file digest fhash has been computed: reject when the
fingerprint is already registered, otherwise append a MINT block. -/
def mint_flow (chain : List Block) (fhash student course year : String) (t1 t2 : Nat) :
    Option (List Block) :=
  let combined := cert_fingerprint fhash student course year
  if has_cert_hash chain combined then Option.some chain
  else (add_block chain (mint_data combined fhash student course year) t1 t2).map Prod.fst

/-- The TRANSFER payload dict built by transfer_flow. -/
def transfer_data (cert_hash : String) (fromv : PyV) (new_owner : String) : PyDict :=
  [("type", PyV.s "TRANSFER"), ("cert_hash", PyV.s cert_hash), ("from", fromv),
   ("to", PyV.s new_owner)]

/-- transfer_flow: reject when the fingerprint has no history, otherwise
resolve the current owner and append a TRANSFER block. The flow takes no
requester identity: any caller can transfer any certificate. -/
def transfer_flow (chain : List Block) (cert_hash new_owner : String) (t1 t2 : Nat) :
    Option (List Block) :=
  let hist := history chain cert_hash
  if hist.isEmpty then Option.some chain
  else
    (add_block chain (transfer_data cert_hash (resolve_owner hist) new_owner) t1 t2).map
      Prod.fst

/-- JSON values appearing in the persisted chain file. -/
inductive JValue where
  | jnum : Nat → JValue
  | jstr : String → JValue
  | jdict : PyDict → JValue
  | jnull : JValue
deriving DecidableEq

/-- One persisted block record, as json.load returns it. -/
abbrev Raw := List (String × JValue)

/-- A Block as reconstructed by Block(**record): the dataclass performs no
type validation, so each field holds whatever JSON value the record had. -/
structure PyBlock where
  index : JValue
  timestamp : JValue
  prev_hash : JValue
  data : JValue
  current_hash : JValue
deriving DecidableEq

/-- A well-typed in-memory block viewed as the untyped loaded form. -/
def Block.toPy (b : Block) : PyBlock :=
  ⟨JValue.jnum b.index, JValue.jnum b.timestamp, JValue.jstr b.prev_hash,
   JValue.jdict b.data, JValue.jstr b.current_hash⟩

/-- dataclasses.asdict on a block: the record with its five fields. -/
def PyBlock.asdict (b : PyBlock) : Raw :=
  [("index", b.index), ("timestamp", b.timestamp), ("prev_hash", b.prev_hash),
   ("data", b.data), ("current_hash", b.current_hash)]

/-- Blockchain.serialize: asdict of every block, in chain order. -/
def serialize (chain : List Block) : List Raw :=
  chain.map (fun b => b.toPy.asdict)

/-- Serialization of an already-loaded (possibly ill-typed) chain. -/
def serializePy (chain : List PyBlock) : List Raw := chain.map PyBlock.asdict

def rget : Raw → String → Option JValue
  | [], _ => Option.none
  | (k, v) :: rest, key => if k = key then Option.some v else rget rest key

/-- Block(**record): succeeds iff the record keys are exactly the five
dataclass field names (a missing or unexpected keyword raises TypeError);
no value is type-checked. -/
def blockOfKwargs (r : Raw) : Option PyBlock :=
  match rget r "index", rget r "timestamp", rget r "prev_hash", rget r "data",
      rget r "current_hash" with
  | Option.some i, Option.some t, Option.some p, Option.some d, Option.some c =>
      if r.length = 5 then Option.some ⟨i, t, p, d, c⟩ else Option.none
  | _, _, _, _, _ => Option.none

/-- Blockchain._load: rebuild every record; any failure aborts the load. -/
def loadChain : List Raw → Option (List PyBlock)
  | [] => Option.some []
  | r :: rs =>
      match blockOfKwargs r, loadChain rs with
      | Option.some b, Option.some bs => Option.some (b :: bs)
      | _, _ => Option.none

/-- Blockchain.__init__: file is the parsed persisted content when the chain
file exists. Returns the in-memory chain and the persisted file content
afterwards; on any load failure the constructor falls back to a fresh
genesis-only chain and saves it. -/
def initChain (file : Option (List Raw)) (t : Nat) : List PyBlock × List Raw :=
  match file with
  | Option.none => ([(create_genesis t).toPy], serialize [create_genesis t])
  | Option.some raw =>
      match loadChain raw with
      | Option.some bs => (bs, raw)
      | Option.none => ([(create_genesis t).toPy], serialize [create_genesis t])

/-- Chains reachable from genesis creation by any sequence of successful
add_block operations, at arbitrary times and with arbitrary payloads. -/
inductive Reachable : List Block → Prop where
  | genesis (t : Nat) : Reachable [create_genesis t]
  | step (c : List Block) (d : PyDict) (t1 t2 : Nat) (c2 : List Block) (b : Block) :
      Reachable c → add_block c d t1 t2 = Option.some (c2, b) → Reachable c2

/-- Concrete genesis block used to instantiate theorems with hypotheses. -/
def genesisW : Block := create_genesis 0

/-- Concrete certificate fingerprint used in instantiations. -/
def fpW : String := cert_fingerprint "f" "a" "c" "y"

/-- Concrete block appended by a first mint on the genesis-only chain. -/
def mintBlockW : Block :=
  ⟨1, 2, genesisW.current_hash, mint_data fpW "f" "a" "c" "y",
   compute_hash 1 (mint_data fpW "f" "a" "c" "y") genesisW.current_hash 1⟩

/-- Concrete two-block chain: genesis plus one minted certificate. -/
def mintedW : List Block := [genesisW, mintBlockW]

/-- Concrete block appended by transferring fpW on mintedW. -/
def transBlockW : Block :=
  ⟨2, 4, mintBlockW.current_hash,
   transfer_data fpW (resolve_owner (history mintedW fpW)) "bob",
   compute_hash 2 (transfer_data fpW (resolve_owner (history mintedW fpW)) "bob")
     mintBlockW.current_hash 3⟩

/-- Concrete block appended by add_block on the genesis-only chain. -/
def blkW : Block :=
  ⟨1, 2, genesisW.current_hash, genesis_data,
   compute_hash 1 genesis_data genesisW.current_hash 1⟩

/-- Unfolding lemma: a successful add_block call appends exactly one block,
built from the last block's current_hash, the pre-append chain length, and
the two clock reads. -/
theorem add_block_some {c : List Block} {d : PyDict} {t1 t2 : Nat} {c2 : List Block}
    {b : Block} (h : add_block c d t1 t2 = Option.some (c2, b)) :
    ∃ lb, c.getLast? = Option.some lb ∧
      b = ⟨c.length, t2, lb.current_hash, d, compute_hash c.length d lb.current_hash t1⟩ ∧
      c2 = c ++ [b] := by
  unfold add_block at h
  cases hl : c.getLast? with
  | none => rw [hl] at h; cases h
  | some lb =>
      rw [hl] at h
      simp only [Option.some.injEq, Prod.mk.injEq] at h
      obtain ⟨h1, h2⟩ := h
      subst h2
      exact ⟨lb, rfl, rfl, h1.symm⟩

/-- The MINT payload always carries its fingerprint under "cert_hash". -/
theorem pyGet_mint_data_cert (combined fhash student course year : String) :
    pyGet (mint_data combined fhash student course year) "cert_hash" = PyV.s combined := rfl

/-- The TRANSFER payload always carries its fingerprint under "cert_hash". -/
theorem pyGet_transfer_data_cert (ch : String) (fromv : PyV) (nw : String) :
    pyGet (transfer_data ch fromv nw) "cert_hash" = PyV.s ch := rfl

/-- Appending a block preserves every positive has_cert_hash answer. -/
theorem has_cert_hash_append_left {c : List Block} {b : Block} {fp : String}
    (h : has_cert_hash c fp = true) : has_cert_hash (c ++ [b]) fp = true := by
  simp only [has_cert_hash, List.any_append] at *
  simp [h]

/-- A chain extended with a block whose payload carries fp satisfies
has_cert_hash fp. -/
theorem has_cert_hash_append_hit {c : List Block} {b : Block} {fp : String}
    (h : pyGet b.data "cert_hash" = PyV.s fp) : has_cert_hash (c ++ [b]) fp = true := by
  simp only [has_cert_hash, List.any_append]
  simp [h]

/-- A successful mint leaves the fingerprint registered: either the duplicate
branch fired (it was registered already) or a MINT block carrying it was
appended. -/
theorem mint_flow_has {c : List Block} {fhash student course year : String} {t1 t2 : Nat}
    {c1 : List Block}
    (h : mint_flow c fhash student course year t1 t2 = Option.some c1) :
    has_cert_hash c1 (cert_fingerprint fhash student course year) = true := by
  unfold mint_flow at h
  by_cases hc : has_cert_hash c (cert_fingerprint fhash student course year) = true
  · rw [if_pos hc] at h
    cases h
    exact hc
  · rw [if_neg hc] at h
    cases hadd : add_block c
        (mint_data (cert_fingerprint fhash student course year) fhash student course year)
        t1 t2 with
    | none => rw [hadd] at h; cases h
    | some pair =>
        obtain ⟨cc, bb⟩ := pair
        rw [hadd] at h
        obtain ⟨lb, hlast, hb, hc2⟩ := add_block_some hadd
        cases h
        rw [hc2]
        exact has_cert_hash_append_hit (by subst hb; rfl)

/-- A mint of an already-registered fingerprint is a no-op returning the
chain unchanged. -/
theorem mint_flow_dup {c : List Block} {fhash student course year : String} {t1 t2 : Nat}
    (h : has_cert_hash c (cert_fingerprint fhash student course year) = true) :
    mint_flow c fhash student course year t1 t2 = Option.some c := by
  unfold mint_flow
  rw [if_pos h]

/-- A successful transfer preserves every positive has_cert_hash answer. -/
theorem transfer_flow_preserves {c : List Block} {ch nw fp : String} {t1 t2 : Nat}
    {c1 : List Block} (hh : has_cert_hash c fp = true)
    (h : transfer_flow c ch nw t1 t2 = Option.some c1) : has_cert_hash c1 fp = true := by
  unfold transfer_flow at h
  by_cases he : (history c ch).isEmpty = true
  · rw [if_pos he] at h
    cases h
    exact hh
  · rw [if_neg he] at h
    cases hadd : add_block c (transfer_data ch (resolve_owner (history c ch)) nw) t1 t2 with
    | none => rw [hadd] at h; cases h
    | some pair =>
        obtain ⟨cc, bb⟩ := pair
        rw [hadd] at h
        obtain ⟨lb, hlast, hb, hc2⟩ := add_block_some hadd
        cases h
        rw [hc2]
        exact has_cert_hash_append_left hh

/-- Records missing the current_hash key make Block(**record) raise. -/
theorem blockOfKwargs_none_missing {r : Raw} (h : rget r "current_hash" = Option.none) :
    blockOfKwargs r = Option.none := by
  unfold blockOfKwargs
  rw [h]
  rcases rget r "index" with _ | i <;> rcases rget r "timestamp" with _ | t <;>
    rcases rget r "prev_hash" with _ | p <;> rcases rget r "data" with _ | d <;> rfl

/-- Records with a key count other than five make Block(**record) raise. -/
theorem blockOfKwargs_none_length {r : Raw} (h : r.length ≠ 5) :
    blockOfKwargs r = Option.none := by
  unfold blockOfKwargs
  rcases rget r "index" with _ | i <;> rcases rget r "timestamp" with _ | t <;>
    rcases rget r "prev_hash" with _ | p <;> rcases rget r "data" with _ | d <;>
    rcases rget r "current_hash" with _ | ch <;> simp [h]

/-- One bad record anywhere in the file aborts the whole load. -/
theorem loadChain_none_of_mem {r : Raw} {raws : List Raw} (hm : r ∈ raws)
    (h : blockOfKwargs r = Option.none) : loadChain raws = Option.none := by
  induction raws with
  | nil => cases hm
  | cons x xs ih =>
      rcases List.mem_cons.mp hm with hx | hx
      · subst hx
        unfold loadChain
        rw [h]
      · unfold loadChain
        rw [ih hx]
        cases blockOfKwargs x <;> rfl

/-- C1: every chain reachable from genesis creation by any sequence of append
operations is non-empty, block 0 has the all-zero 64-character sentinel as
prev_hash, every later block's prev_hash equals its predecessor's
current_hash, and every block's index field equals its position. -/
theorem c1_chain_invariants {cs : List Block} (h : Reachable cs) :
    cs ≠ [] ∧
    (∀ b0 : Block, cs[0]? = Option.some b0 → b0.prev_hash = sentinel) ∧
    (∀ (i : Nat) (b1 b2 : Block), cs[i]? = Option.some b1 → cs[i + 1]? = Option.some b2 →
      b2.prev_hash = b1.current_hash) ∧
    (∀ (i : Nat) (b : Block), cs[i]? = Option.some b → b.index = i) := by
  induction h with
  | genesis t =>
      refine ⟨by simp, ?_, ?_, ?_⟩
      · intro b0 hb
        simp only [List.getElem?_cons_zero, Option.some.injEq] at hb
        subst hb
        rfl
      · intro i b1 b2 h1 h2
        have hlt := (List.getElem?_eq_some.mp h2).1
        simp at hlt
      · intro i b hb
        have hlt := (List.getElem?_eq_some.mp hb).1
        have hi : i = 0 := by simp at hlt; omega
        subst hi
        simp only [List.getElem?_cons_zero, Option.some.injEq] at hb
        subst hb
        rfl
  | step cs d t1 t2 cs2 b hr hadd ih =>
      obtain ⟨hne, hgen, hlink, hidx⟩ := ih
      obtain ⟨lb, hlast, hb, hc2⟩ := add_block_some hadd
      subst hc2
      have hclen : 0 < cs.length := List.length_pos.mpr hne
      refine ⟨by simp, ?_, ?_, ?_⟩
      · intro b0 hb0
        rw [List.getElem?_append_left hclen] at hb0
        exact hgen b0 hb0
      · intro i b1 b2 h1 h2
        have hlt2 : i + 1 < cs.length + 1 := by
          have := (List.getElem?_eq_some.mp h2).1
          simpa using this
        rcases Nat.lt_or_ge (i + 1) cs.length with hcase | hcase
        · rw [List.getElem?_append_left hcase] at h2
          rw [List.getElem?_append_left (Nat.lt_of_succ_lt hcase)] at h1
          exact hlink i b1 b2 h1 h2
        · have hieq : i + 1 = cs.length := by omega
          rw [hieq, List.getElem?_concat_length] at h2
          injection h2 with h2b
          have hieq2 : i = cs.length - 1 := by omega
          have hi1 : i < cs.length := by omega
          rw [List.getElem?_append_left hi1] at h1
          have hcl : cs[i]? = cs.getLast? := by
            rw [List.getLast?_eq_getElem? cs, hieq2]
          rw [hcl, hlast] at h1
          injection h1 with h1b
          subst h1b
          subst h2b
          rw [hb]
      · intro i b3 hb3
        rcases Nat.lt_or_ge i cs.length with hcase | hcase
        · rw [List.getElem?_append_left hcase] at hb3
          exact hidx i b3 hb3
        · have hlt : i < cs.length + 1 := by
            have := (List.getElem?_eq_some.mp hb3).1
            simpa using this
          have hieq : i = cs.length := by omega
          subst hieq
          rw [List.getElem?_concat_length] at hb3
          injection hb3 with hb3b
          subst hb3b
          rw [hb]

/-- Witness for C1 at the concrete genesis-only chain created at tick 3. -/
theorem c1_witness :
    ([create_genesis 3] : List Block) ≠ [] ∧
    (create_genesis 3).prev_hash = sentinel ∧ (create_genesis 3).index = 0 := by
  have H := c1_chain_invariants (Reachable.genesis 3)
  exact ⟨H.1, H.2.1 (create_genesis 3) rfl, H.2.2.2 0 (create_genesis 3) rfl⟩

/-- C2: on any non-empty chain of length N, append succeeds and yields the
old chain plus one new block whose index is N, whose prev_hash is the old
last block's current_hash, whose hash comes from compute_hash on
(payload, prev_hash, N), and whose timestamp is the clock reading; the
first N blocks are unchanged and the new block is returned. -/
theorem c2_append_correct (c : List Block) (d : PyDict) (t1 t2 : Nat) (lb : Block)
    (h : c.getLast? = Option.some lb) :
    ∃ b, add_block c d t1 t2 = Option.some (c ++ [b], b) ∧
      (c ++ [b]).length = c.length + 1 ∧ b.index = c.length ∧
      b.prev_hash = lb.current_hash ∧
      b.current_hash = compute_hash c.length d lb.current_hash t1 ∧
      b.timestamp = t2 ∧ (c ++ [b]).take c.length = c := by
  refine ⟨⟨c.length, t2, lb.current_hash, d, compute_hash c.length d lb.current_hash t1⟩,
    ?_, by simp, rfl, rfl, rfl, rfl, List.take_left c _⟩
  unfold add_block
  rw [h]

/-- Witness for C2 at the concrete genesis-only chain. -/
theorem c2_witness :
    add_block [genesisW] genesis_data 1 2 = Option.some ([genesisW, blkW], blkW) ∧
    blkW.index = 1 ∧ blkW.prev_hash = genesisW.current_hash ∧
    blkW.current_hash = compute_hash 1 genesis_data genesisW.current_hash 1 ∧
    blkW.timestamp = 2 := by
  obtain ⟨b, h1, h2, h3, h4, h5, h6, h7⟩ :=
    c2_append_correct [genesisW] genesis_data 1 2 genesisW rfl
  have hval : add_block [genesisW] genesis_data 1 2 = Option.some ([genesisW, blkW], blkW) :=
    rfl
  have heq := h1.symm.trans hval
  have hbw : b = blkW := congrArg (fun p => p.2) (Option.some.inj heq)
  subst hbw
  exact ⟨hval, h3, h4, h5, h6⟩

/-- C3: resolve_owner scans oldest to newest with last write winning: it
returns A on a lone Mint by A, B after a Transfer to B, C after a further
Transfer to C, and the absent value None on the empty history, without
failing. -/
theorem c3_resolve_owner_examples :
    resolve_owner [] = PyV.none ∧
    resolve_owner [⟨1, 10, "p1", mint_data "F" "fh" "A" "CS101" "2025", "h1"⟩] = PyV.s "A" ∧
    resolve_owner [⟨1, 10, "p1", mint_data "F" "fh" "A" "CS101" "2025", "h1"⟩,
      ⟨2, 11, "p2", transfer_data "F" (PyV.s "A") "B", "h2"⟩] = PyV.s "B" ∧
    resolve_owner [⟨1, 10, "p1", mint_data "F" "fh" "A" "CS101" "2025", "h1"⟩,
      ⟨2, 11, "p2", transfer_data "F" (PyV.s "A") "B", "h2"⟩,
      ⟨3, 12, "p3", transfer_data "F" (PyV.s "B") "C", "h3"⟩] = PyV.s "C" :=
  ⟨rfl, rfl, rfl, rfl⟩

/-- C4 amended: every appended block's current_hash is the sha256 hex digest
of repr(payload), the previous hash, the pre-append chain length and the
clock tick joined by the pipe delimiter; the genesis block's current_hash
is instead the digest of repr(payload) alone. -/
theorem c4_hash_inputs :
    (∀ (c : List Block) (d : PyDict) (t1 t2 : Nat) (lb : Block),
        c.getLast? = Option.some lb →
        ∀ c2 b, add_block c d t1 t2 = Option.some (c2, b) →
          b.current_hash =
            SHA256.sha256hex
              (pyReprDict d ++ "|" ++ lb.current_hash ++ "|" ++ toString c.length ++ "|" ++
                toString t1)) ∧
    (∀ t, (create_genesis t).current_hash = SHA256.sha256hex (pyReprDict genesis_data)) := by
  constructor
  · intro c d t1 t2 lb hl c2 b hadd
    obtain ⟨lb2, hl2, hb, hc2⟩ := add_block_some hadd
    injection hl.symm.trans hl2 with hlb
    subst hlb
    subst hb
    rfl
  · intro t
    rfl

/-- Counterexample to C4 as stated: the genesis block's stored hash is not
the digest of the four-input concatenation the claim prescribes, at chain
length 0 and creation tick 0. -/
theorem c4_counterexample :
    (create_genesis 0).current_hash ≠
      SHA256.sha256hex
        (pyReprDict (create_genesis 0).data ++ "|" ++ (create_genesis 0).prev_hash ++ "|" ++
          toString (0 : Nat) ++ "|" ++ toString (0 : Nat)) := by
  decide

/-- Witness for C4 amended at a concrete appended block and a concrete
genesis block. -/
theorem c4_witness :
    blkW.current_hash =
      SHA256.sha256hex
        (pyReprDict genesis_data ++ "|" ++ genesisW.current_hash ++ "|" ++
          toString (1 : Nat) ++ "|" ++ toString (1 : Nat)) ∧
    (create_genesis 5).current_hash = SHA256.sha256hex (pyReprDict genesis_data) := by
  refine ⟨?_, c4_hash_inputs.2 5⟩
  exact c4_hash_inputs.1 [genesisW] genesis_data 1 2 genesisW rfl [genesisW, blkW] blkW rfl

/-- C5: the certificate fingerprint is the digest of the four fields joined
by the pipe delimiter, so identical mint inputs give identical fingerprints;
after any successful mint the fingerprint is registered, and a second
identical attempt is detected as a duplicate by has_cert_hash and appends
no block, returning the chain unchanged. -/
theorem c5_duplicate_mint (c : List Block) (fhash student course year : String)
    (t1 t2 t3 t4 : Nat) (c1 : List Block)
    (h : mint_flow c fhash student course year t1 t2 = Option.some c1) :
    cert_fingerprint fhash student course year =
      SHA256.sha256hex (fhash ++ "|" ++ student ++ "|" ++ course ++ "|" ++ year) ∧
    has_cert_hash c1 (cert_fingerprint fhash student course year) = true ∧
    mint_flow c1 fhash student course year t3 t4 = Option.some c1 :=
  ⟨rfl, mint_flow_has h, mint_flow_dup (mint_flow_has h)⟩

/-- Witness for C5: a concrete first mint on the genesis chain, after which
the identical second attempt is a detected duplicate no-op. -/
theorem c5_witness :
    cert_fingerprint "f" "a" "c" "y" =
      SHA256.sha256hex ("f" ++ "|" ++ "a" ++ "|" ++ "c" ++ "|" ++ "y") ∧
    has_cert_hash mintedW (cert_fingerprint "f" "a" "c" "y") = true ∧
    mint_flow mintedW "f" "a" "c" "y" 3 4 = Option.some mintedW :=
  c5_duplicate_mint [genesisW] "f" "a" "c" "y" 1 2 3 4 mintedW rfl

/-- C6: has_cert_hash is true exactly when some block payload carries the
fingerprint under cert_hash (MINT and TRANSFER payloads both do); it is true
immediately after any successful mint of the fingerprint and remains true
across any later successful transfer. -/
theorem c6_has_certificate :
    (∀ (c : List Block) (fp : String),
        has_cert_hash c fp = true ↔ ∃ b ∈ c, pyGet b.data "cert_hash" = PyV.s fp) ∧
    (∀ (c : List Block) (fhash student course year : String) (t1 t2 : Nat)
        (c1 : List Block),
        mint_flow c fhash student course year t1 t2 = Option.some c1 →
        has_cert_hash c1 (cert_fingerprint fhash student course year) = true) ∧
    (∀ (c c1 : List Block) (ch nw fp : String) (t1 t2 : Nat),
        has_cert_hash c fp = true → transfer_flow c ch nw t1 t2 = Option.some c1 →
        has_cert_hash c1 fp = true) := by
  refine ⟨?_, ?_, ?_⟩
  · intro c fp
    simp [has_cert_hash, List.any_eq_true]
  · intro c fhash student course year t1 t2 c1 h
    exact mint_flow_has h
  · intro c c1 ch nw fp t1 t2 hh h
    exact transfer_flow_preserves hh h

/-- Witness for C6 at the concrete minted chain and a concrete transfer. -/
theorem c6_witness :
    (has_cert_hash mintedW fpW = true ↔
      ∃ b ∈ mintedW, pyGet b.data "cert_hash" = PyV.s fpW) ∧
    has_cert_hash mintedW fpW = true ∧
    has_cert_hash (mintedW ++ [transBlockW]) fpW = true := by
  refine ⟨c6_has_certificate.1 mintedW fpW, ?_, ?_⟩
  · exact c6_has_certificate.2.1 [genesisW] "f" "a" "c" "y" 1 2 mintedW rfl
  · exact c6_has_certificate.2.2 mintedW (mintedW ++ [transBlockW]) fpW "bob" fpW 3 4 rfl rfl

/-- C7: a transfer of a fingerprint with empty history appends nothing and
returns the ledger unchanged; with non-empty history it appends exactly one
block whose payload is a TRANSFER carrying from = the owner resolved from
that history and to = the supplied new owner. The flow receives no requester
identity, so no authorization is checked. -/
theorem c7_transfer_rules (c : List Block) (ch nw : String) (t1 t2 : Nat) :
    (history c ch = [] → transfer_flow c ch nw t1 t2 = Option.some c) ∧
    (history c ch ≠ [] →
      ∃ lb b, c.getLast? = Option.some lb ∧
        b = ⟨c.length, t2, lb.current_hash,
              transfer_data ch (resolve_owner (history c ch)) nw,
              compute_hash c.length (transfer_data ch (resolve_owner (history c ch)) nw)
                lb.current_hash t1⟩ ∧
        transfer_flow c ch nw t1 t2 = Option.some (c ++ [b])) := by
  constructor
  · intro he
    simp [transfer_flow, he]
  · intro hne
    have hcne : c ≠ [] := by
      intro hc
      subst hc
      exact hne rfl
    obtain ⟨lb, hlb⟩ := Option.isSome_iff_exists.mp (List.getLast?_isSome.mpr hcne)
    have hemp : (history c ch).isEmpty = false := by
      cases hh : history c ch with
      | nil => exact absurd hh hne
      | cons x xs => rfl
    refine ⟨lb, ⟨c.length, t2, lb.current_hash,
      transfer_data ch (resolve_owner (history c ch)) nw,
      compute_hash c.length (transfer_data ch (resolve_owner (history c ch)) nw)
        lb.current_hash t1⟩, hlb, rfl, ?_⟩
    simp only [transfer_flow, hemp, Bool.false_eq_true, if_false]
    unfold add_block
    rw [hlb]
    rfl

/-- Witness for C7: rejecting a never-minted fingerprint on the genesis
chain, and transferring the concrete minted certificate. -/
theorem c7_witness :
    transfer_flow [genesisW] "zz" "bob" 1 2 = Option.some [genesisW] ∧
    transfer_flow mintedW fpW "bob" 3 4 = Option.some (mintedW ++ [transBlockW]) := by
  constructor
  · exact (c7_transfer_rules [genesisW] "zz" "bob" 1 2).1 rfl
  · obtain ⟨lb, b, hlb, hbeq, hflow⟩ :=
      (c7_transfer_rules mintedW fpW "bob" 3 4).2 (by decide)
    have hlbw : lb = mintBlockW :=
      Option.some.inj (hlb.symm.trans (rfl : mintedW.getLast? = Option.some mintBlockW))
    subst hlbw
    subst hbeq
    exact hflow

/-- C8 amended: a persisted record with a missing field or an extra field is
a load failure, and any load failure makes initialization fall back to a
fresh genesis-only chain which is persisted; but a mistyped field alone is
not a failure: Block(**record) performs no type validation and accepts the
ill-typed values as they are. No exception escapes initialization: initChain
is total. -/
theorem c8_load_recovery :
    (∀ (raws : List Raw) (t : Nat), loadChain raws = Option.none →
        initChain (Option.some raws) t =
          ([(create_genesis t).toPy], serialize [create_genesis t])) ∧
    (∀ (r : Raw) (raws : List Raw), r ∈ raws → rget r "current_hash" = Option.none →
        loadChain raws = Option.none) ∧
    (∀ (r : Raw) (raws : List Raw), r ∈ raws → r.length ≠ 5 →
        loadChain raws = Option.none) ∧
    (∀ i t p d ch, blockOfKwargs
        [("index", i), ("timestamp", t), ("prev_hash", p), ("data", d),
         ("current_hash", ch)] = Option.some ⟨i, t, p, d, ch⟩) := by
  refine ⟨?_, ?_, ?_, ?_⟩
  · intro raws t h
    have hdef : initChain (Option.some raws) t =
        (match loadChain raws with
        | Option.some bs => (bs, raws)
        | Option.none => ([(create_genesis t).toPy], serialize [create_genesis t])) := rfl
    rw [hdef, h]
  · intro r raws hm h
    exact loadChain_none_of_mem hm (blockOfKwargs_none_missing h)
  · intro r raws hm h
    exact loadChain_none_of_mem hm (blockOfKwargs_none_length h)
  · intro i t p d ch
    rfl

/-- A persisted record whose index field holds a string instead of an
integer: structurally complete but mistyped. -/
def badRec : Raw :=
  [("index", JValue.jstr "0"), ("timestamp", JValue.jnum 0),
   ("prev_hash", JValue.jstr "p"), ("data", JValue.jdict []),
   ("current_hash", JValue.jstr "h")]

/-- A persisted record missing the current_hash field. -/
def missingRec : Raw :=
  [("index", JValue.jnum 0), ("timestamp", JValue.jnum 0),
   ("prev_hash", JValue.jstr "p"), ("data", JValue.jdict [])]

/-- A persisted record with an extra sixth field. -/
def extraRec : Raw := badRec ++ [("extra", JValue.jnull)]

/-- Counterexample to C8 as stated: a record whose index is a string loads
successfully as-is instead of triggering the genesis fallback, so a mistyped
field is not a load failure. -/
theorem c8_counterexample :
    (initChain (Option.some [badRec]) 7).1 =
      [⟨JValue.jstr "0", JValue.jnum 0, JValue.jstr "p", JValue.jdict [],
        JValue.jstr "h"⟩] ∧
    (initChain (Option.some [badRec]) 7).1 ≠ [(create_genesis 7).toPy] := by
  exact ⟨rfl, by decide⟩

/-- Witness for C8 amended at concrete malformed records. -/
theorem c8_witness :
    initChain (Option.some [missingRec]) 3 =
      ([(create_genesis 3).toPy], serialize [create_genesis 3]) ∧
    loadChain [missingRec] = Option.none ∧
    loadChain [extraRec] = Option.none ∧
    blockOfKwargs badRec =
      Option.some ⟨JValue.jstr "0", JValue.jnum 0, JValue.jstr "p", JValue.jdict [],
        JValue.jstr "h"⟩ := by
  refine ⟨?_, ?_, ?_, ?_⟩
  · exact c8_load_recovery.1 [missingRec] 3
      (c8_load_recovery.2.1 missingRec [missingRec] (by simp) rfl)
  · exact c8_load_recovery.2.1 missingRec [missingRec] (by simp) rfl
  · exact c8_load_recovery.2.2.1 extraRec [extraRec] (by simp) (by decide)
  · exact c8_load_recovery.2.2.2 (JValue.jstr "0") (JValue.jnum 0) (JValue.jstr "p")
      (JValue.jdict []) (JValue.jstr "h")

/-- C9: serializing any chain and loading the result reconstructs every
block field-for-field, including current_hash, which the loader copies from
the stored record and never recomputes (blockOfKwargs applies no hashing). -/
theorem c9_round_trip (c : List Block) :
    loadChain (serialize c) = Option.some (c.map Block.toPy) := by
  induction c with
  | nil => rfl
  | cons b bs ih =>
      have h1 : blockOfKwargs b.toPy.asdict = Option.some b.toPy := rfl
      have h2 : loadChain (b.toPy.asdict :: serialize bs) =
          Option.some (b.toPy :: bs.map Block.toPy) := by
        unfold loadChain
        rw [h1, ih]
      exact h2

/-- C10: genesis creation is deterministic: its hash is the digest of the
repr of its payload alone, independent of the creation tick, the sentinel,
and the chain length, so two creations at different times agree; by
contrast compute_hash folds the clock tick into the digest input, and the
blocks appended from the same state at different ticks hash differently. -/
theorem c10_genesis_determinism :
    (∀ t1 t2 : Nat, (create_genesis t1).current_hash = (create_genesis t2).current_hash) ∧
    (∀ t : Nat, (create_genesis t).current_hash = SHA256.sha256hex (pyReprDict genesis_data)) ∧
    (∀ (n : Nat) (d : PyDict) (ph : String) (t : Nat),
        compute_hash n d ph t =
          SHA256.sha256hex
            (pyReprDict d ++ "|" ++ ph ++ "|" ++ toString n ++ "|" ++ toString t)) ∧
    (add_block [genesisW] genesis_data 1 1).map (fun p => p.2.current_hash) ≠
      (add_block [genesisW] genesis_data 2 2).map (fun p => p.2.current_hash) := by
  refine ⟨fun t1 t2 => rfl, fun t => rfl, fun n d ph t => rfl, by decide⟩

end CertChain
